import Mathlib

/-!
Shallow embedding of the osaurus-relay server (Deno/TypeScript) for
verification of its specification claims.

Modelled source files:
  * `src/auth.ts`    — EIP-191 signature verification plumbing (the crypto
    primitive `viem.verifyMessage` is abstracted as an oracle);
  * `src/tunnel.ts`  — registry (`registerAgent` / `unregisterAgent` /
    `teardown`), `handleAddAgent`, the auth registration loop;
  * `src/relay.ts`   — request-header construction, buffered-response
    completion, streaming dispatch;
  * `src/rate_limit.ts` — the token-bucket `RateLimiter.allow`;
  * `src/router.ts`  — `handleRequest` dispatch.

JavaScript `Map` objects are embedded as association lists with the usual
set/delete/lookup operations (insertion order preserved, keys unique);
JavaScript plain objects used as string-keyed records are embedded the same
way. `String.prototype.toLowerCase` is embedded as a character-wise ASCII
lowering, which is exact on the hex addresses and header names the relay
manipulates.
-/

namespace OsaurusRelay

/-! ## Association-list maps (embedding of JS `Map` and string-keyed objects) -/

/-- Lookup in an association list (JS `Map.get` / property read). -/
def alookup {κ α : Type} [DecidableEq κ] : List (κ × α) → κ → Option α
  | [], _ => none
  | (k, v) :: rest, key => if k = key then some v else alookup rest key

/-- Insert-or-replace (JS `Map.set` / property write): replaces the value in
place when the key is present, otherwise appends. -/
def aset {κ α : Type} [DecidableEq κ] : List (κ × α) → κ → α → List (κ × α)
  | [], key, v => [(key, v)]
  | (k, w) :: rest, key, v =>
    if k = key then (key, v) :: rest else (k, w) :: aset rest key v

/-- Delete the first entry with the given key (JS `Map.delete`). -/
def adel {κ α : Type} [DecidableEq κ] : List (κ × α) → κ → List (κ × α)
  | [], _ => []
  | (k, w) :: rest, key => if k = key then rest else (k, w) :: adel rest key

theorem alookup_aset_self {κ α : Type} [DecidableEq κ]
    (m : List (κ × α)) (k : κ) (v : α) : alookup (aset m k v) k = some v := by
  induction m with
  | nil => simp [aset, alookup]
  | cons hd tl ih =>
    obtain ⟨k', v'⟩ := hd
    by_cases h : k' = k <;> simp [aset, alookup, h, ih]

theorem alookup_aset_ne {κ α : Type} [DecidableEq κ]
    (m : List (κ × α)) (k k' : κ) (v : α) (h : k ≠ k') :
    alookup (aset m k v) k' = alookup m k' := by
  induction m with
  | nil => simp [aset, alookup, h]
  | cons hd tl ih =>
    obtain ⟨k₀, v₀⟩ := hd
    by_cases h₀ : k₀ = k
    · subst h₀; simp [aset, alookup, h]
    · simp [aset, alookup, h₀, ih]

theorem alookup_eq_none_of_not_mem {κ α : Type} [DecidableEq κ]
    (m : List (κ × α)) (k : κ) (h : k ∉ m.map Prod.fst) :
    alookup m k = none := by
  induction m with
  | nil => rfl
  | cons hd tl ih =>
    obtain ⟨k₀, v₀⟩ := hd
    simp only [List.map_cons, List.mem_cons, not_or] at h
    have hne : ¬ (k₀ = k) := fun he => h.1 he.symm
    simp only [alookup, if_neg hne]
    exact ih h.2

theorem mem_keys_aset {κ α : Type} [DecidableEq κ]
    (m : List (κ × α)) (k k' : κ) (v : α) :
    k' ∈ (aset m k v).map Prod.fst ↔ k' = k ∨ k' ∈ m.map Prod.fst := by
  induction m with
  | nil => simp [aset]
  | cons hd tl ih =>
    obtain ⟨k₀, v₀⟩ := hd
    by_cases h₀ : k₀ = k
    · subst h₀; simp [aset]
    · simp only [aset, if_neg h₀, List.map_cons, List.mem_cons, ih]
      tauto

theorem adel_sublist {κ α : Type} [DecidableEq κ]
    (m : List (κ × α)) (k : κ) : (adel m k).Sublist m := by
  induction m with
  | nil => simp [adel]
  | cons hd tl ih =>
    obtain ⟨k₀, v₀⟩ := hd
    by_cases h₀ : k₀ = k
    · simp only [adel, if_pos h₀]
      exact (List.sublist_cons_self _ _)
    · simp only [adel, if_neg h₀]
      exact ih.cons₂ _

theorem alookup_adel_self {κ α : Type} [DecidableEq κ]
    (m : List (κ × α)) (k : κ) (h : (m.map Prod.fst).Nodup) :
    alookup (adel m k) k = none := by
  induction m with
  | nil => rfl
  | cons hd tl ih =>
    obtain ⟨k₀, v₀⟩ := hd
    simp only [List.map_cons, List.nodup_cons] at h
    by_cases h₀ : k₀ = k
    · subst h₀
      simp only [adel, if_pos rfl]
      exact alookup_eq_none_of_not_mem tl k₀ h.1
    · simp only [adel, if_neg h₀, alookup, if_neg h₀]
      exact ih h.2

theorem alookup_adel_ne {κ α : Type} [DecidableEq κ]
    (m : List (κ × α)) (k k' : κ) (h : k ≠ k') :
    alookup (adel m k) k' = alookup m k' := by
  induction m with
  | nil => rfl
  | cons hd tl ih =>
    obtain ⟨k₀, v₀⟩ := hd
    by_cases h₀ : k₀ = k
    · subst h₀
      simp [adel, alookup, h]
    · simp only [adel, if_neg h₀, alookup]
      by_cases h₁ : k₀ = k'
      · simp [h₁]
      · simp only [if_neg h₁]
        exact ih

theorem aset_keys_nodup {κ α : Type} [DecidableEq κ]
    (m : List (κ × α)) (k : κ) (v : α) (h : (m.map Prod.fst).Nodup) :
    ((aset m k v).map Prod.fst).Nodup := by
  induction m with
  | nil => simp [aset]
  | cons hd tl ih =>
    obtain ⟨k₀, v₀⟩ := hd
    simp only [List.map_cons, List.nodup_cons] at h
    by_cases h₀ : k₀ = k
    · subst h₀
      simpa [aset] using h
    · simp only [aset, if_neg h₀, List.map_cons, List.nodup_cons]
      refine ⟨fun hm => ?_, ih h.2⟩
      rcases (mem_keys_aset tl k k₀ v).mp hm with he | hm'
      · exact h₀ he
      · exact h.1 hm'

theorem adel_keys_nodup {κ α : Type} [DecidableEq κ]
    (m : List (κ × α)) (k : κ) (h : (m.map Prod.fst).Nodup) :
    ((adel m k).map Prod.fst).Nodup :=
  ((adel_sublist m k).map Prod.fst).nodup h

/-- With unique keys, a key determines its entry: an address can be paired
with at most one value in the list. -/
theorem nodupKeys_unique {κ α : Type} [DecidableEq κ]
    (m : List (κ × α)) (h : (m.map Prod.fst).Nodup)
    (k : κ) (v w : α) (hv : (k, v) ∈ m) (hw : (k, w) ∈ m) : v = w := by
  induction m with
  | nil => cases hv
  | cons hd tl ih =>
    obtain ⟨k₀, v₀⟩ := hd
    simp only [List.map_cons, List.nodup_cons] at h
    rcases List.mem_cons.mp hv with he | hv' <;>
      rcases List.mem_cons.mp hw with he' | hw'
    · rw [Prod.mk.injEq] at he he'
      exact he.2.trans he'.2.symm
    · exfalso
      rw [Prod.mk.injEq] at he
      exact h.1 (he.1 ▸ (List.mem_map.mpr ⟨(k, w), hw', rfl⟩))
    · exfalso
      rw [Prod.mk.injEq] at he'
      exact h.1 (he'.1 ▸ (List.mem_map.mpr ⟨(k, v), hv', rfl⟩))
    · exact ih h.2 hv' hw'

/-! ## Lowercasing (embedding of `String.prototype.toLowerCase`) -/

/-- Character-wise ASCII lowercasing; exact for the hex addresses and header
names handled by the relay. -/
def lowerStr (s : String) : String := ⟨s.data.map Char.toLower⟩

/-! ## `src/auth.ts` -/

/-- Timestamp freshness window, seconds (`TIMESTAMP_WINDOW_SECONDS`). -/
def TIMESTAMP_WINDOW_SECONDS : Nat := 30

/-- One agent credential in an `auth` or `add_agent` frame. -/
structure AgentAuth where
  address : String
  signature : String
deriving DecidableEq

/-- Canonical signed message `osaurus-tunnel:<address>:<nonce>:<timestamp>`
(`buildSignedMessage` in `auth.ts`). -/
def buildSignedMessage (address nonce : String) (timestamp : Int) : String :=
  "osaurus-tunnel:" ++ address ++ ":" ++ nonce ++ ":" ++ toString timestamp

/-- Type of the external EIP-191 verifier (`viem.verifyMessage`), abstracted:
`verify address message signature` is `some b` when the primitive returns `b`,
and `none` when it throws. -/
def VerifyOracle : Type := String → String → String → Option Bool

/-- Embedding of `verifyAgent` (`auth.ts`): reject when the timestamp is more
than 30 s from `now`; call the crypto primitive on the canonical message,
treating a thrown exception (`none`) as invalid; on success return the
lowercased address. -/
def verifyAgent (verify : VerifyOracle) (now : Int) (agent : AgentAuth)
    (nonce : String) (timestamp : Int) : Option String :=
  if TIMESTAMP_WINDOW_SECONDS < (now - timestamp).natAbs then none
  else
    match verify agent.address (buildSignedMessage agent.address nonce timestamp)
        agent.signature with
    | none => none
    | some false => none
    | some true => some (lowerStr agent.address)

/-- Embedding of `verifyAuth` (`auth.ts`): verify every agent; if any fails the
whole batch fails. -/
def verifyAuth (verify : VerifyOracle) (now : Int) :
    List AgentAuth → String → Int → Option (List String)
  | [], _, _ => some []
  | agent :: rest, nonce, timestamp =>
    match verifyAgent verify now agent nonce timestamp with
    | none => none
    | some addr =>
      match verifyAuth verify now rest nonce timestamp with
      | none => none
      | some addrs => some (addr :: addrs)

/-! ## `src/tunnel.ts` — connection state and registry -/

/-- Per-tunnel address cap (`MAX_AGENTS_PER_TUNNEL`). -/
def MAX_AGENTS_PER_TUNNEL : Nat := 50

/-- Base domain default (`BASE_DOMAIN`). -/
def BASE_DOMAIN : String := "agent.osaurus.ai"

/-- Public URL for an agent (`agentUrl`). -/
def agentUrl (address : String) : String :=
  "https://" ++ address ++ "." ++ BASE_DOMAIN

/-- JS `Set.add` on an insertion-ordered string set. -/
def setAdd (s : List String) (x : String) : List String :=
  if x ∈ s then s else s ++ [x]

/-- JS `Set.delete`. -/
def setDelete (s : List String) (x : String) : List String := s.erase x

/-- Embedding of the mutable fields of a `TunnelConnection`. Timers are
identified by numeric handles, as in Deno. -/
structure Conn where
  agents : List String
  pending : List (String × Nat)
  streaming : List (String × Nat)
  missedPings : Nat
  keepaliveTimer : Nat
  pendingNonce : Option String
  pendingNonceTimer : Option Nat
deriving DecidableEq

/-- The registry `tunnels : Map<string, TunnelConnection>`, with connections
named by numeric identity (JS object identity). -/
abbrev Registry : Type := List (String × Nat)

/-- Embedding of `registerAgent` (`tunnel.ts` 49–58): refuse when the
lowercased address is already bound to a different connection; otherwise add
to the connection's agent set and bind. Returns the boolean result together
with the updated registry and connection. -/
def registerAgent (tunnels : Registry) (connId : Nat) (conn : Conn)
    (address : String) : Bool × Registry × Conn :=
  let lower := lowerStr address
  match alookup tunnels lower with
  | some existing =>
    if existing ≠ connId then (false, tunnels, conn)
    else
      (true, aset tunnels lower connId,
        { conn with agents := setAdd conn.agents lower })
  | none =>
    (true, aset tunnels lower connId,
      { conn with agents := setAdd conn.agents lower })

/-- Embedding of `unregisterAgent` (`tunnel.ts` 60–66): drop the address from
the agent set, and delete the registry binding only when it still points at
this connection. -/
def unregisterAgent (tunnels : Registry) (connId : Nat) (conn : Conn)
    (address : String) : Registry × Conn :=
  let lower := lowerStr address
  let conn' := { conn with agents := setDelete conn.agents lower }
  if alookup tunnels lower = some connId then (adel tunnels lower, conn')
  else (tunnels, conn')

/-- A buffered `response` frame. -/
structure ResponseFrame where
  id : String
  status : Nat
  headers : List (String × String)
  body : String
deriving DecidableEq

/-- Body of the 502 completion injected at teardown:
`JSON.stringify({ error: "tunnel_closed" })`. -/
def tunnelClosedBody : String := "\x7b\"error\":\"tunnel_closed\"\x7d"

/-- The synthetic `response` frame teardown feeds to each pending resolver. -/
def tunnelClosedFrame : ResponseFrame :=
  { id := "", status := 502, headers := [], body := tunnelClosedBody }

/-- Observable side effects of teardown. -/
inductive Event
  | clearedTimer (timer : Nat)
  | completed (requestId : String) (frame : ResponseFrame)
  | streamErrored (requestId : String)
deriving DecidableEq

/-- Embedding of `teardown` (`tunnel.ts` 68–92) together with
`teardownStreaming` (`relay.ts` 183–191): cancel the keepalive and pending
nonce timers; conditionally unbind every owned address; complete each pending
request with the 502 `tunnel_closed` frame, clearing its deadline timer; clear
the pending table; error every streaming sink; clear the agent set. The
returned event list records each timer cancellation and completion in program
order. -/
def teardown (tunnels : Registry) (connId : Nat) (conn : Conn) :
    Registry × Conn × List Event :=
  let ev0 := [Event.clearedTimer conn.keepaliveTimer]
  let ev1 :=
    match conn.pendingNonceTimer with
    | some t => ev0 ++ [Event.clearedTimer t]
    | none => ev0
  let tunnels' := conn.agents.foldl
    (fun tns addr =>
      if alookup tns addr = some connId then adel tns addr else tns) tunnels
  let evPending := conn.pending.foldl
    (fun evs idt =>
      evs ++ [Event.clearedTimer idt.2, Event.completed idt.1 tunnelClosedFrame]) []
  let evStream := conn.streaming.foldl
    (fun evs idt =>
      evs ++ [Event.clearedTimer idt.2, Event.streamErrored idt.1]) []
  (tunnels',
    { conn with pending := [], streaming := [], agents := [] },
    ev1 ++ evPending ++ evStream)

/-- Reply surface of `handleAddAgent`. -/
inductive AddAgentReply
  | errorFrame (error : String)
  | agentAdded (address url : String)
deriving DecidableEq

/-- An `add_agent` frame. -/
structure AddAgentFrame where
  address : String
  signature : String
  nonce : String
  timestamp : Int
deriving DecidableEq

/-- Embedding of `handleAddAgent` (`tunnel.ts` 120–161): reject at the agent
cap without touching the pending nonce; reject a missing or mismatched nonce;
otherwise consume the nonce (and its expiry timer) before verification, then
report `invalid_signature`, `address_already_registered`, or success. -/
def handleAddAgent (verify : VerifyOracle) (now : Int) (tunnels : Registry)
    (connId : Nat) (conn : Conn) (frame : AddAgentFrame) :
    AddAgentReply × Registry × Conn :=
  if MAX_AGENTS_PER_TUNNEL ≤ conn.agents.length then
    (.errorFrame "max_agents_reached", tunnels, conn)
  else
    match conn.pendingNonce with
    | none => (.errorFrame "invalid_nonce", tunnels, conn)
    | some pn =>
      if pn ≠ frame.nonce then (.errorFrame "invalid_nonce", tunnels, conn)
      else
        match verifyAgent verify now ⟨frame.address, frame.signature⟩ pn
            frame.timestamp with
        | none =>
          (.errorFrame "invalid_signature", tunnels,
            { conn with pendingNonce := none, pendingNonceTimer := none })
        | some addr =>
          match registerAgent tunnels connId
              { conn with pendingNonce := none, pendingNonceTimer := none } addr with
          | (false, tns, c) => (.errorFrame "address_already_registered", tns, c)
          | (true, tns, c) => (.agentAdded addr (agentUrl addr), tns, c)

/-- The `auth_ok` frame: accepted agents with URLs, and the optional
`rejected` list of `(address, reason)` pairs. -/
structure AuthOkFrame where
  agents : List (String × String)
  rejected : Option (List (String × String))
deriving DecidableEq

/-- The registration loop of `handleTunnelConnect` (`tunnel.ts` 310–318):
fold `registerAgent` over the verified addresses, partitioning them into
`registered` and `rejected` in order. -/
def authRegisterLoop (connId : Nat) :
    List String → Registry → Conn → List String → List String →
    List String × List String × Registry × Conn
  | [], tns, c, reg, rej => (reg, rej, tns, c)
  | addr :: rest, tns, c, reg, rej =>
    match registerAgent tns connId c addr with
    | (true, tns', c') => authRegisterLoop connId rest tns' c' (reg ++ [addr]) rej
    | (false, tns', c') => authRegisterLoop connId rest tns' c' reg (rej ++ [addr])

/-- The `auth_ok` construction of `handleTunnelConnect` (`tunnel.ts`
310–329): run the registration loop and report accepted agents with URLs plus
the rejected addresses, each tagged `already_registered` (the field is omitted
when no agent was rejected). -/
def authRegister (tunnels : Registry) (connId : Nat) (conn : Conn)
    (verified : List String) : AuthOkFrame × Registry × Conn :=
  match authRegisterLoop connId verified tunnels conn [] [] with
  | (registered, rejected, tns, c) =>
    ({ agents := registered.map (fun a => (a, agentUrl a)),
       rejected :=
         if rejected.length > 0 then
           some (rejected.map (fun a => (a, "already_registered")))
         else none },
      tns, c)

/-- Registry states reachable through the registry-mutating operations of
`tunnel.ts`, starting from the empty map. -/
inductive ReachTunnels : Registry → Prop
  | init : ReachTunnels []
  | register (tns : Registry) (connId : Nat) (conn : Conn) (addr : String) :
      ReachTunnels tns → ReachTunnels (registerAgent tns connId conn addr).2.1
  | unregister (tns : Registry) (connId : Nat) (conn : Conn) (addr : String) :
      ReachTunnels tns → ReachTunnels (unregisterAgent tns connId conn addr).1
  | teardownStep (tns : Registry) (connId : Nat) (conn : Conn) :
      ReachTunnels tns → ReachTunnels (teardown tns connId conn).1
  | addAgent (tns : Registry) (verify : VerifyOracle) (now : Int)
      (connId : Nat) (conn : Conn) (frame : AddAgentFrame) :
      ReachTunnels tns →
      ReachTunnels (handleAddAgent verify now tns connId conn frame).2.1
  | auth (tns : Registry) (connId : Nat) (conn : Conn) (verified : List String) :
      ReachTunnels tns → ReachTunnels (authRegister tns connId conn verified).2.1

/-! ## Registry lemmas -/

theorem registerAgent_refused (tns : Registry) (connId : Nat) (conn : Conn)
    (addr A : String) (t1 : Nat) (hl : lowerStr addr = A)
    (hA : alookup tns A = some t1) (ht : t1 ≠ connId) :
    registerAgent tns connId conn addr = (false, tns, conn) := by
  simp only [registerAgent]
  rw [hl, hA]
  simp [ht]

theorem registerAgent_preserves (tns : Registry) (connId : Nat) (conn : Conn)
    (addr A : String) (t1 : Nat)
    (hA : alookup tns A = some t1) (ht : t1 ≠ connId) :
    alookup (registerAgent tns connId conn addr).2.1 A = some t1 := by
  by_cases hl : lowerStr addr = A
  · rw [registerAgent_refused tns connId conn addr A t1 hl hA ht]
    exact hA
  · simp only [registerAgent]
    cases he : alookup tns (lowerStr addr) with
    | none => simp [alookup_aset_ne tns (lowerStr addr) A connId hl, hA]
    | some existing =>
      by_cases hex : existing = connId
      · subst hex
        simp [alookup_aset_ne tns (lowerStr addr) A existing hl, hA]
      · simp [hex, hA]

theorem registerAgent_registry_shape (tns : Registry) (connId : Nat)
    (conn : Conn) (addr : String) :
    (registerAgent tns connId conn addr).2.1 = tns ∨
    (registerAgent tns connId conn addr).2.1 = aset tns (lowerStr addr) connId := by
  simp only [registerAgent]
  cases he : alookup tns (lowerStr addr) with
  | none => simp
  | some existing =>
    by_cases hex : existing = connId
    · subst hex; simp
    · simp [hex]

theorem registerAgent_keys_nodup (tns : Registry) (connId : Nat) (conn : Conn)
    (addr : String) (h : (tns.map Prod.fst).Nodup) :
    (((registerAgent tns connId conn addr).2.1).map Prod.fst).Nodup := by
  rcases registerAgent_registry_shape tns connId conn addr with hs | hs <;> rw [hs]
  · exact h
  · exact aset_keys_nodup tns (lowerStr addr) connId h

theorem unregisterAgent_registry_shape (tns : Registry) (connId : Nat)
    (conn : Conn) (addr : String) :
    (unregisterAgent tns connId conn addr).1 = tns ∨
    (unregisterAgent tns connId conn addr).1 = adel tns (lowerStr addr) := by
  simp only [unregisterAgent]
  by_cases hc : alookup tns (lowerStr addr) = some connId <;> simp [hc]

theorem unregisterAgent_keys_nodup (tns : Registry) (connId : Nat) (conn : Conn)
    (addr : String) (h : (tns.map Prod.fst).Nodup) :
    (((unregisterAgent tns connId conn addr).1).map Prod.fst).Nodup := by
  rcases unregisterAgent_registry_shape tns connId conn addr with hs | hs <;> rw [hs]
  · exact h
  · exact adel_keys_nodup tns (lowerStr addr) h

/-- One step of the teardown registry loop. -/
def teardownStep1 (connId : Nat) (tns : Registry) (addr : String) : Registry :=
  if alookup tns addr = some connId then adel tns addr else tns

theorem teardown_registry_eq_foldl (tns : Registry) (connId : Nat) (conn : Conn) :
    (teardown tns connId conn).1 = conn.agents.foldl (teardownStep1 connId) tns := by
  rfl

theorem teardownStep1_keys_nodup (connId : Nat) (tns : Registry) (addr : String)
    (h : (tns.map Prod.fst).Nodup) :
    ((teardownStep1 connId tns addr).map Prod.fst).Nodup := by
  unfold teardownStep1
  by_cases hc : alookup tns addr = some connId
  · simp only [hc, if_pos rfl]
    exact adel_keys_nodup tns addr h
  · simp [hc, h]

theorem teardown_keys_nodup (tns : Registry) (connId : Nat) (conn : Conn)
    (h : (tns.map Prod.fst).Nodup) :
    (((teardown tns connId conn).1).map Prod.fst).Nodup := by
  rw [teardown_registry_eq_foldl]
  induction conn.agents generalizing tns with
  | nil => exact h
  | cons a rest ih =>
    exact ih (teardownStep1 connId tns a) (teardownStep1_keys_nodup connId tns a h)

theorem teardownStep1_preserves (connId : Nat) (tns : Registry) (addr A : String)
    (t1 : Nat) (hA : alookup tns A = some t1) (ht : t1 ≠ connId) :
    alookup (teardownStep1 connId tns addr) A = some t1 := by
  unfold teardownStep1
  by_cases hc : alookup tns addr = some connId
  · rw [if_pos hc]
    by_cases he : addr = A
    · subst he
      rw [hA] at hc
      exact absurd (Option.some.inj hc) ht
    · rw [alookup_adel_ne tns addr A he]
      exact hA
  · rw [if_neg hc]
    exact hA

theorem teardown_preserves (tns : Registry) (connId : Nat) (conn : Conn)
    (A : String) (t1 : Nat) (hA : alookup tns A = some t1) (ht : t1 ≠ connId) :
    alookup (teardown tns connId conn).1 A = some t1 := by
  rw [teardown_registry_eq_foldl]
  induction conn.agents generalizing tns with
  | nil => exact hA
  | cons a rest ih =>
    exact ih (teardownStep1 connId tns a) (teardownStep1_preserves connId tns a A t1 hA ht)

theorem handleAddAgent_registry_shape (verify : VerifyOracle) (now : Int)
    (tns : Registry) (connId : Nat) (conn : Conn) (frame : AddAgentFrame) :
    (handleAddAgent verify now tns connId conn frame).2.1 = tns ∨
    ∃ c addr, (handleAddAgent verify now tns connId conn frame).2.1 =
      (registerAgent tns connId c addr).2.1 := by
  unfold handleAddAgent
  split
  · exact Or.inl rfl
  · split
    · exact Or.inl rfl
    · next pn hpn =>
      split
      · exact Or.inl rfl
      · split
        · exact Or.inl rfl
        · next addr hv =>
          split
          · next tns' c' hr =>
            exact Or.inr ⟨{ conn with pendingNonce := none, pendingNonceTimer := none },
              addr, by rw [hr]⟩
          · next tns' c' hr =>
            exact Or.inr ⟨{ conn with pendingNonce := none, pendingNonceTimer := none },
              addr, by rw [hr]⟩

theorem handleAddAgent_keys_nodup (verify : VerifyOracle) (now : Int)
    (tns : Registry) (connId : Nat) (conn : Conn) (frame : AddAgentFrame)
    (h : (tns.map Prod.fst).Nodup) :
    (((handleAddAgent verify now tns connId conn frame).2.1).map Prod.fst).Nodup := by
  rcases handleAddAgent_registry_shape verify now tns connId conn frame with hs | ⟨c, addr, hs⟩ <;>
    rw [hs]
  · exact h
  · exact registerAgent_keys_nodup tns connId c addr h

theorem authRegisterLoop_keys_nodup (connId : Nat) (verified : List String)
    (tns : Registry) (conn : Conn) (reg rej : List String)
    (h : (tns.map Prod.fst).Nodup) :
    (((authRegisterLoop connId verified tns conn reg rej).2.2.1).map Prod.fst).Nodup := by
  induction verified generalizing tns conn reg rej with
  | nil => exact h
  | cons a rest ih =>
    unfold authRegisterLoop
    cases hr : registerAgent tns connId conn a with
    | mk ok rest' =>
      have hkeys : ((rest'.1).map Prod.fst).Nodup := by
        have := registerAgent_keys_nodup tns connId conn a h
        rw [hr] at this
        exact this
      cases ok <;> simpa using ih rest'.1 rest'.2 _ _ hkeys

theorem authRegister_keys_nodup (tns : Registry) (connId : Nat) (conn : Conn)
    (verified : List String) (h : (tns.map Prod.fst).Nodup) :
    (((authRegister tns connId conn verified).2.1).map Prod.fst).Nodup := by
  unfold authRegister
  cases hr : authRegisterLoop connId verified tns conn [] [] with
  | mk registered rest =>
    have := authRegisterLoop_keys_nodup connId verified tns conn [] [] h
    rw [hr] at this
    simpa using this

/-- Every reachable registry has unique address keys. -/
theorem reach_keys_nodup (tns : Registry) (h : ReachTunnels tns) :
    (tns.map Prod.fst).Nodup := by
  induction h with
  | init => simp
  | register tns connId conn addr _ ih => exact registerAgent_keys_nodup tns connId conn addr ih
  | unregister tns connId conn addr _ ih => exact unregisterAgent_keys_nodup tns connId conn addr ih
  | teardownStep tns connId conn _ ih => exact teardown_keys_nodup tns connId conn ih
  | addAgent tns verify now connId conn frame _ ih =>
    exact handleAddAgent_keys_nodup verify now tns connId conn frame ih
  | auth tns connId conn verified _ ih => exact authRegister_keys_nodup tns connId conn verified ih

/-- Embedding of `getTunnelForAgent` (`tunnel.ts` 41–43). -/
def getTunnelForAgent (tunnels : Registry) (address : String) : Option Nat :=
  alookup tunnels (lowerStr address)

/-- Walking the auth registration loop from a state in which `A` is bound to a
foreign connection: the binding survives, previously rejected addresses stay
rejected, and every listed address lowering to `A` ends up rejected. -/
theorem authRegisterLoop_rejects (connId : Nat) (A : String) (t1 : Nat)
    (ht : t1 ≠ connId) :
    ∀ (verified : List String) (tns : Registry) (c : Conn) (reg rej : List String),
      alookup tns A = some t1 →
      alookup (authRegisterLoop connId verified tns c reg rej).2.2.1 A = some t1 ∧
      rej ⊆ (authRegisterLoop connId verified tns c reg rej).2.1 ∧
      ∀ addr ∈ verified, lowerStr addr = A →
        addr ∈ (authRegisterLoop connId verified tns c reg rej).2.1 := by
  intro verified
  induction verified with
  | nil =>
    intro tns c reg rej hA
    exact ⟨hA, List.Subset.refl rej, by simp⟩
  | cons a rest ih =>
    intro tns c reg rej hA
    unfold authRegisterLoop
    by_cases hl : lowerStr a = A
    · rw [registerAgent_refused tns connId c a A t1 hl hA ht]
      obtain ⟨h1, h2, h3⟩ := ih tns c reg (rej ++ [a]) hA
      refine ⟨h1, ?_, ?_⟩
      · exact List.Subset.trans (List.subset_append_left rej [a]) h2
      · intro addr hmem hlow
        rcases List.mem_cons.mp hmem with rfl | hm
        · exact h2 (by simp)
        · exact h3 addr hm hlow
    · rcases hr : registerAgent tns connId c a with ⟨ok, tns', c'⟩
      have hA' : alookup tns' A = some t1 := by
        have hp := registerAgent_preserves tns connId c a A t1 hA ht
        rw [hr] at hp
        exact hp
      cases ok
      · obtain ⟨h1, h2, h3⟩ := ih tns' c' reg (rej ++ [a]) hA'
        refine ⟨h1, List.Subset.trans (List.subset_append_left rej [a]) h2, ?_⟩
        intro addr hmem hlow
        rcases List.mem_cons.mp hmem with rfl | hm
        · exact absurd hlow hl
        · exact h3 addr hm hlow
      · obtain ⟨h1, h2, h3⟩ := ih tns' c' (reg ++ [a]) rej hA'
        refine ⟨h1, h2, ?_⟩
        intro addr hmem hlow
        rcases List.mem_cons.mp hmem with rfl | hm
        · exact absurd hlow hl
        · exact h3 addr hm hlow

/-- Reduction of `handleAddAgent` when the tunnel is below the agent cap and
the frame carries the pending nonce: the nonce slot is consumed and control
reaches verification and registration. -/
theorem handleAddAgent_nonce_match (verify : VerifyOracle) (now : Int)
    (tns : Registry) (connId : Nat) (conn : Conn) (frame : AddAgentFrame)
    (hncap : ¬ MAX_AGENTS_PER_TUNNEL ≤ conn.agents.length)
    (hn : conn.pendingNonce = some frame.nonce) :
    handleAddAgent verify now tns connId conn frame =
      match verifyAgent verify now ⟨frame.address, frame.signature⟩ frame.nonce
          frame.timestamp with
      | none =>
        (.errorFrame "invalid_signature", tns,
          { conn with pendingNonce := none, pendingNonceTimer := none })
      | some addr =>
        match registerAgent tns connId
            { conn with pendingNonce := none, pendingNonceTimer := none } addr with
        | (false, tns', c) => (.errorFrame "address_already_registered", tns', c)
        | (true, tns', c) => (.agentAdded addr (agentUrl addr), tns', c) := by
  unfold handleAddAgent
  rw [if_neg hncap]
  split
  · next heq => rw [hn] at heq; cases heq
  · next pn heq =>
    rw [hn] at heq
    injection heq with heq'
    subst heq'
    rw [if_neg (show ¬ (frame.nonce ≠ frame.nonce) from fun h => h rfl)]

/-- Claim C1: exclusive ownership of addresses. If the registry maps address
`A` to tunnel `t1` and `t2` is a different tunnel, then (i) an `auth` frame
from `t2` whose verified address list contains an address lowering to `A`
produces an `auth_ok` whose `rejected` list contains that address with reason
`already_registered`, and the registry entry for `A` still maps to `t1`;
(ii) an `add_agent` for `A` from `t2` with a valid signature is answered
`error{address_already_registered}` and leaves the registry unchanged;
(iii) `registerAgent` itself refuses and changes nothing; and (iv) in every
reachable registry an address is bound to at most one tunnel. -/
theorem claim_exclusive_address_ownership
    (tns : Registry) (A : String) (t1 t2 : Nat)
    (hA : alookup tns A = some t1) (ht : t1 ≠ t2) :
    (∀ (conn : Conn) (verified : List String) (addr : String),
        addr ∈ verified → lowerStr addr = A →
        (∃ rej, (authRegister tns t2 conn verified).1.rejected = some rej ∧
            (addr, "already_registered") ∈ rej) ∧
        alookup (authRegister tns t2 conn verified).2.1 A = some t1) ∧
    (∀ (verify : VerifyOracle) (now : Int) (conn : Conn) (frame : AddAgentFrame)
        (vaddr : String),
        conn.agents.length < MAX_AGENTS_PER_TUNNEL →
        conn.pendingNonce = some frame.nonce →
        verifyAgent verify now ⟨frame.address, frame.signature⟩ frame.nonce
          frame.timestamp = some vaddr →
        lowerStr vaddr = A →
        (handleAddAgent verify now tns t2 conn frame).1 =
          .errorFrame "address_already_registered" ∧
        (handleAddAgent verify now tns t2 conn frame).2.1 = tns) ∧
    (∀ (conn : Conn) (addr : String), lowerStr addr = A →
        registerAgent tns t2 conn addr = (false, tns, conn)) ∧
    (∀ tns', ReachTunnels tns' →
        ∀ a u v, (a, u) ∈ tns' → (a, v) ∈ tns' → u = v) := by
  refine ⟨?_, ?_, ?_, ?_⟩
  · intro conn verified addr hmem hlow
    obtain ⟨h1, _h2, h3⟩ :=
      authRegisterLoop_rejects t2 A t1 ht verified tns conn [] [] hA
    have haddr := h3 addr hmem hlow
    unfold authRegister
    rcases hr : authRegisterLoop t2 verified tns conn [] [] with
      ⟨registered, rej, tns', c'⟩
    rw [hr] at haddr h1
    refine ⟨⟨rej.map (fun a => (a, "already_registered")), ?_, ?_⟩, h1⟩
    · have hpos : rej.length > 0 :=
        List.length_pos.mpr (List.ne_nil_of_mem haddr)
      simp [hpos]
    · exact List.mem_map.mpr ⟨addr, haddr, rfl⟩
  · intro verify now conn frame vaddr hcap hn hv hlow
    have hncap : ¬ MAX_AGENTS_PER_TUNNEL ≤ conn.agents.length :=
      Nat.not_le.mpr hcap
    have hreg := registerAgent_refused tns t2
      { conn with pendingNonce := none, pendingNonceTimer := none }
      vaddr A t1 hlow hA ht
    rw [handleAddAgent_nonce_match verify now tns t2 conn frame hncap hn]
    simp [hv, hreg]
  · intro conn addr hlow
    exact registerAgent_refused tns t2 conn addr A t1 hlow hA ht
  · intro tns' hreach a u v hu hv
    exact nodupKeys_unique tns' (reach_keys_nodup tns' hreach) a u v hu hv

/-- A fully quiescent connection record, used to instantiate witnesses. -/
def emptyConn : Conn :=
  { agents := [], pending := [], streaming := [], missedPings := 0,
    keepaliveTimer := 0, pendingNonce := none, pendingNonceTimer := none }

/-- Witness for C1: with `0xaa` bound to tunnel 1, tunnel 2's `registerAgent`
for `0xAA` is refused and the registry is unchanged. -/
theorem claim_exclusive_address_ownership_witness :
    alookup [("0xaa", 1)] "0xaa" = some 1 ∧ (1 : Nat) ≠ 2 ∧
    "0xAA" ∈ ["0xAA"] ∧ lowerStr "0xAA" = "0xaa" ∧
    registerAgent [("0xaa", 1)] 2 emptyConn "0xAA" =
      (false, [("0xaa", 1)], emptyConn) := by
  refine ⟨by decide, by decide, by decide, by decide, ?_⟩
  exact (claim_exclusive_address_ownership [("0xaa", 1)] "0xaa" 1 2
    (by decide) (by decide)).2.2.1 emptyConn "0xAA" (by decide)

/-- Claim C2: conditional unregister (stale-teardown safety). With `a` bound
to tunnel `tNew` and `tOld ≠ tNew`: (i) `remove_agent`-style unregistration by
`tOld` leaves the registry untouched; (ii) teardown of `tOld` leaves the
lookup of `a` returning `tNew`, whatever addresses `tOld` still lists;
(iii) unregistration by the actual owner `tNew` does delete the binding. -/
theorem claim_conditional_unregister
    (tns : Registry) (a : String) (tOld tNew : Nat) (connOld : Conn)
    (hnodup : (tns.map Prod.fst).Nodup)
    (hA : alookup tns a = some tNew) (hne : tOld ≠ tNew) :
    (∀ (conn : Conn) (addr : String), lowerStr addr = a →
        (unregisterAgent tns tOld conn addr).1 = tns) ∧
    (∀ addr, lowerStr addr = a →
        getTunnelForAgent (teardown tns tOld connOld).1 addr = some tNew) ∧
    (∀ (conn : Conn) (addr : String), lowerStr addr = a →
        alookup (unregisterAgent tns tNew conn addr).1 a = none) := by
  refine ⟨?_, ?_, ?_⟩
  · intro conn addr hlow
    simp only [unregisterAgent]
    rw [hlow, hA]
    simp [Ne.symm hne]
  · intro addr hlow
    unfold getTunnelForAgent
    rw [hlow]
    exact teardown_preserves tns tOld connOld a tNew hA (Ne.symm hne)
  · intro conn addr hlow
    simp only [unregisterAgent]
    rw [hlow, hA]
    simp only [if_pos rfl]
    exact alookup_adel_self tns a hnodup

/-- Witness for C2: tunnel 7 once held `0xaa`, the address now belongs to
tunnel 9; tearing down tunnel 7 (which still lists `0xaa`) leaves the lookup
returning tunnel 9. -/
theorem claim_conditional_unregister_witness :
    ([("0xaa", 9)].map (Prod.fst (α := String) (β := Nat))).Nodup ∧
    alookup [("0xaa", 9)] "0xaa" = some 9 ∧ (7 : Nat) ≠ 9 ∧
    lowerStr "0xaa" = "0xaa" ∧
    getTunnelForAgent
      (teardown [("0xaa", 9)] 7 { emptyConn with agents := ["0xaa"] }).1
      "0xaa" = some 9 := by
  refine ⟨by decide, by decide, by decide, by decide, ?_⟩
  exact (claim_conditional_unregister [("0xaa", 9)] "0xaa" 7 9
    { emptyConn with agents := ["0xaa"] }
    (by decide) (by decide) (by decide)).2.1 "0xaa" (by decide)

/-! ## Claim C6 — teardown atomicity for in-flight requests -/

/-- The completion events teardown produced for a given request id. -/
def completionsFor (evs : List Event) (rid : String) : List ResponseFrame :=
  evs.filterMap (fun e =>
    match e with
    | .completed i f => if i = rid then some f else none
    | _ => none)

theorem completionsFor_append (evs₁ evs₂ : List Event) (rid : String) :
    completionsFor (evs₁ ++ evs₂) rid =
      completionsFor evs₁ rid ++ completionsFor evs₂ rid :=
  List.filterMap_append evs₁ evs₂ _

/-- Events of one pending entry at teardown. -/
def pendingEvs (idt : String × Nat) : List Event :=
  [Event.clearedTimer idt.2, Event.completed idt.1 tunnelClosedFrame]

/-- Events of one streaming entry at teardown. -/
def streamEvs (idt : String × Nat) : List Event :=
  [Event.clearedTimer idt.2, Event.streamErrored idt.1]

theorem foldl_ev_pending (l : List (String × Nat)) (init : List Event) :
    List.foldl (fun evs idt =>
        evs ++ [Event.clearedTimer idt.2, Event.completed idt.1 tunnelClosedFrame])
      init l = init ++ (l.map pendingEvs).flatten := by
  induction l generalizing init with
  | nil => simp
  | cons p rest ih => simp [ih, pendingEvs]

theorem foldl_ev_stream (l : List (String × Nat)) (init : List Event) :
    List.foldl (fun evs idt =>
        evs ++ [Event.clearedTimer idt.2, Event.streamErrored idt.1])
      init l = init ++ (l.map streamEvs).flatten := by
  induction l generalizing init with
  | nil => simp
  | cons p rest ih => simp [ih, streamEvs]

theorem teardown_events_eq (tns : Registry) (connId : Nat) (conn : Conn) :
    (teardown tns connId conn).2.2 =
      (match conn.pendingNonceTimer with
        | some t => [Event.clearedTimer conn.keepaliveTimer, Event.clearedTimer t]
        | none => [Event.clearedTimer conn.keepaliveTimer]) ++
      (conn.pending.map pendingEvs).flatten ++
      (conn.streaming.map streamEvs).flatten := by
  simp only [teardown]
  rw [foldl_ev_pending conn.pending [], foldl_ev_stream conn.streaming []]
  cases conn.pendingNonceTimer <;> simp

theorem completionsFor_pendingEvs (idt : String × Nat) (rid : String) :
    completionsFor (pendingEvs idt) rid =
      if idt.1 = rid then [tunnelClosedFrame] else [] := by
  by_cases h : idt.1 = rid <;> simp [completionsFor, pendingEvs, h]

theorem completionsFor_streamEvs (idt : String × Nat) (rid : String) :
    completionsFor (streamEvs idt) rid = [] := by
  simp [completionsFor, streamEvs]

theorem completionsFor_pending_not_mem (l : List (String × Nat)) (rid : String)
    (h : rid ∉ l.map Prod.fst) :
    completionsFor (l.map pendingEvs).flatten rid = [] := by
  induction l with
  | nil => rfl
  | cons p rest ih =>
    simp only [List.map_cons, List.mem_cons, not_or] at h
    have hp : ¬ (p.1 = rid) := fun he => h.1 he.symm
    rw [List.map_cons, List.flatten_cons, completionsFor_append,
      completionsFor_pendingEvs, if_neg hp, ih h.2]
    rfl

theorem completionsFor_pending_mem (l : List (String × Nat)) (rid : String)
    (timer : Nat) (hnodup : (l.map Prod.fst).Nodup) (h : (rid, timer) ∈ l) :
    completionsFor (l.map pendingEvs).flatten rid = [tunnelClosedFrame] := by
  induction l with
  | nil => cases h
  | cons p rest ih =>
    simp only [List.map_cons, List.nodup_cons] at hnodup
    rw [List.map_cons, List.flatten_cons, completionsFor_append,
      completionsFor_pendingEvs]
    rcases List.mem_cons.mp h with he | hm
    · have hfst : p.1 = rid := by rw [← he]
      have hrest : rid ∉ rest.map Prod.fst := hfst ▸ hnodup.1
      rw [if_pos hfst, completionsFor_pending_not_mem rest rid hrest]
      rfl
    · have hp : ¬ (p.1 = rid) := fun he' =>
        hnodup.1 (he' ▸ List.mem_map.mpr ⟨(rid, timer), hm, rfl⟩)
      rw [if_neg hp, ih hnodup.2 hm]
      rfl

theorem completionsFor_stream (l : List (String × Nat)) (rid : String) :
    completionsFor (l.map streamEvs).flatten rid = [] := by
  induction l with
  | nil => rfl
  | cons p rest ih =>
    rw [List.map_cons, List.flatten_cons, completionsFor_append,
      completionsFor_streamEvs, ih]
    rfl

theorem clearedTimer_mem_pendingEvs (l : List (String × Nat)) (rid : String)
    (timer : Nat) (h : (rid, timer) ∈ l) :
    Event.clearedTimer timer ∈ (l.map pendingEvs).flatten := by
  induction l with
  | nil => cases h
  | cons p rest ih =>
    simp only [List.map_cons, List.flatten_cons, List.mem_append]
    rcases List.mem_cons.mp h with he | hm
    · left
      have hsnd : p.2 = timer := by rw [← he]
      simp [pendingEvs, hsnd]
    · right
      exact ih hm

/-- Claim C6: teardown atomicity for in-flight requests. For every request in
the pending table when the tunnel tears down, the event trace contains exactly
one completion for it — the 502 response with body
`{"error":"tunnel_closed"}` — and a cancellation of its deadline timer; no
completion is emitted for any id outside the table; and afterwards the pending
table is empty. -/
theorem claim_teardown_inflight_atomicity
    (tns : Registry) (connId : Nat) (conn : Conn)
    (hnodup : (conn.pending.map Prod.fst).Nodup) :
    (teardown tns connId conn).2.1.pending = [] ∧
    (∀ rid timer, (rid, timer) ∈ conn.pending →
        completionsFor (teardown tns connId conn).2.2 rid =
          [{ id := "", status := 502, headers := [], body := tunnelClosedBody }] ∧
        Event.clearedTimer timer ∈ (teardown tns connId conn).2.2) ∧
    (∀ rid, rid ∉ conn.pending.map Prod.fst →
        completionsFor (teardown tns connId conn).2.2 rid = []) := by
  have hev := teardown_events_eq tns connId conn
  have hhead : ∀ rid,
      completionsFor
        (match conn.pendingNonceTimer with
          | some t => [Event.clearedTimer conn.keepaliveTimer, Event.clearedTimer t]
          | none => [Event.clearedTimer conn.keepaliveTimer]) rid = [] := by
    intro rid
    cases conn.pendingNonceTimer <;> rfl
  refine ⟨rfl, ?_, ?_⟩
  · intro rid timer hmem
    constructor
    · rw [hev, completionsFor_append, completionsFor_append, hhead,
        completionsFor_pending_mem conn.pending rid timer hnodup hmem,
        completionsFor_stream]
      rfl
    · rw [hev]
      refine List.mem_append.mpr (Or.inl (List.mem_append.mpr (Or.inr ?_)))
      exact clearedTimer_mem_pendingEvs conn.pending rid timer hmem
  · intro rid hrid
    rw [hev, completionsFor_append, completionsFor_append, hhead,
      completionsFor_pending_not_mem conn.pending rid hrid,
      completionsFor_stream]
    rfl

/-- Witness for C6: a tunnel with two in-flight requests tears down; request
`r1` obtains exactly its 502 `tunnel_closed` completion. -/
theorem claim_teardown_inflight_atomicity_witness :
    ((([("r1", 5), ("r2", 6)] : List (String × Nat)).map Prod.fst).Nodup) ∧
    ("r1", 5) ∈ ([("r1", 5), ("r2", 6)] : List (String × Nat)) ∧
    completionsFor
      (teardown [] 3 { emptyConn with pending := [("r1", 5), ("r2", 6)] }).2.2
      "r1" =
      [{ id := "", status := 502, headers := [], body := tunnelClosedBody }] := by
  refine ⟨by decide, by decide, ?_⟩
  exact ((claim_teardown_inflight_atomicity [] 3
    { emptyConn with pending := [("r1", 5), ("r2", 6)] }
    (by decide)).2.1 "r1" 5 (by decide)).1

/-! ## Claim C7 — add-agent nonce discipline -/

theorem handleAddAgent_invalid_nonce (verify : VerifyOracle) (now : Int)
    (tns : Registry) (connId : Nat) (c : Conn) (frame : AddAgentFrame)
    (hncap : ¬ MAX_AGENTS_PER_TUNNEL ≤ c.agents.length)
    (hn : c.pendingNonce = none) :
    handleAddAgent verify now tns connId c frame =
      (.errorFrame "invalid_nonce", tns, c) := by
  unfold handleAddAgent
  rw [if_neg hncap, hn]

theorem registerAgent_conn_nonce (tns : Registry) (connId : Nat) (c : Conn)
    (addr : String) :
    (registerAgent tns connId c addr).2.2.pendingNonce = c.pendingNonce ∧
    (registerAgent tns connId c addr).2.2.pendingNonceTimer = c.pendingNonceTimer := by
  simp only [registerAgent]
  cases he : alookup tns (lowerStr addr) with
  | none => exact ⟨rfl, rfl⟩
  | some e =>
    by_cases h : e = connId
    · subst h; simp
    · simp [h]

/-- Claim C7 (amended): add-agent nonce discipline. Below the agent cap, an
`add_agent` carrying the pending nonce consumes the nonce and its expiry
timer whatever the outcome (success, signature failure, or registry
conflict); a replay on the resulting connection receives
`error{invalid_nonce}` provided the connection is still below the agent cap
(the cap check precedes the nonce check, so a replay arriving once the tunnel
has reached the cap is answered `max_agents_reached` instead); and an
`add_agent` rejected with `max_agents_reached` returns the connection — its
pending nonce and expiry timer included — and the registry untouched. -/
theorem claim_addAgent_nonce_discipline
    (verify verify₂ : VerifyOracle) (now now₂ : Int) (tns tns₂ : Registry)
    (connId connId₂ : Nat) (conn : Conn) (frame frame₂ : AddAgentFrame)
    (hn : conn.pendingNonce = some frame.nonce)
    (hcap : conn.agents.length < MAX_AGENTS_PER_TUNNEL) :
    ((handleAddAgent verify now tns connId conn frame).2.2.pendingNonce = none ∧
     (handleAddAgent verify now tns connId conn frame).2.2.pendingNonceTimer
       = none) ∧
    ((handleAddAgent verify now tns connId conn frame).2.2.agents.length <
        MAX_AGENTS_PER_TUNNEL →
      (handleAddAgent verify₂ now₂ tns₂ connId₂
          (handleAddAgent verify now tns connId conn frame).2.2 frame₂).1 =
        .errorFrame "invalid_nonce") ∧
    (∀ (c : Conn) (f : AddAgentFrame),
      MAX_AGENTS_PER_TUNNEL ≤ c.agents.length →
      handleAddAgent verify now tns connId c f =
        (.errorFrame "max_agents_reached", tns, c)) := by
  have hncap : ¬ MAX_AGENTS_PER_TUNNEL ≤ conn.agents.length :=
    Nat.not_le.mpr hcap
  have hfields :
      (handleAddAgent verify now tns connId conn frame).2.2.pendingNonce = none ∧
      (handleAddAgent verify now tns connId conn frame).2.2.pendingNonceTimer
        = none := by
    unfold handleAddAgent
    rw [if_neg hncap]
    split
    · next heq => rw [hn] at heq; cases heq
    · next pn heq =>
      rw [hn] at heq
      injection heq with heq'
      subst heq'
      rw [if_neg (show ¬ (frame.nonce ≠ frame.nonce) from fun h => h rfl)]
      split
      · exact ⟨rfl, rfl⟩
      · next addr hv =>
        split
        · next tns' c' hr =>
          have hc := registerAgent_conn_nonce tns connId
            { conn with pendingNonce := none, pendingNonceTimer := none } addr
          rw [hr] at hc
          exact ⟨hc.1, hc.2⟩
        · next tns' c' hr =>
          have hc := registerAgent_conn_nonce tns connId
            { conn with pendingNonce := none, pendingNonceTimer := none } addr
          rw [hr] at hc
          exact ⟨hc.1, hc.2⟩
  refine ⟨hfields, ?_, ?_⟩
  · intro hcap'
    rw [handleAddAgent_invalid_nonce verify₂ now₂ tns₂ connId₂
      (handleAddAgent verify now tns connId conn frame).2.2 frame₂
      (Nat.not_le.mpr hcap') hfields.1]
  · intro c f hc
    unfold handleAddAgent
    rw [if_pos hc]

/-- Witness for the amended C7: consuming the nonce on a successful
`add_agent`, then replaying it, yields `error{invalid_nonce}`. -/
theorem claim_addAgent_nonce_discipline_witness :
    ({ emptyConn with pendingNonce := some "n", pendingNonceTimer := some 2
       } : Conn).pendingNonce = some "n" ∧
    ({ emptyConn with pendingNonce := some "n", pendingNonceTimer := some 2
       } : Conn).agents.length < MAX_AGENTS_PER_TUNNEL ∧
    ((handleAddAgent (fun _ _ _ => some true) 0 [] 1
        { emptyConn with pendingNonce := some "n", pendingNonceTimer := some 2 }
        ⟨"0xB", "sig", "n", 0⟩).2.2.pendingNonce = none ∧
     (handleAddAgent (fun _ _ _ => some true) 0 [] 1
        { emptyConn with pendingNonce := some "n", pendingNonceTimer := some 2 }
        ⟨"0xB", "sig", "n", 0⟩).2.2.pendingNonceTimer = none) := by
  refine ⟨by decide, by decide, ?_⟩
  exact (claim_addAgent_nonce_discipline (fun _ _ _ => some true)
    (fun _ _ _ => some true) 0 0 [] [] 1 1
    { emptyConn with pendingNonce := some "n", pendingNonceTimer := some 2 }
    ⟨"0xB", "sig", "n", 0⟩ ⟨"0xB", "sig", "n", 0⟩ (by decide) (by decide)).1

/-- A connection one address below the cap, holding pending nonce `n`. -/
def connNearCap : Conn :=
  { agents := (List.range 49).map (fun i => "a" ++ toString i),
    pending := [], streaming := [], missedPings := 0, keepaliveTimer := 0,
    pendingNonce := some "n", pendingNonceTimer := some 1 }

/-- Counterexample to C7 as stated: a tunnel with 49 agents performs a
successful `add_agent` with the pending nonce (reaching the 50-agent cap);
the replay of the very same nonce is answered `error{max_agents_reached}`,
not `error{invalid_nonce}`, because the cap check precedes the nonce check. -/
theorem claim_addAgent_nonce_discipline_counterexample :
    (handleAddAgent (fun _ _ _ => some true) 0
        (handleAddAgent (fun _ _ _ => some true) 0 [] 1 connNearCap
          ⟨"0xb", "sig", "n", 0⟩).2.1 1
        (handleAddAgent (fun _ _ _ => some true) 0 [] 1 connNearCap
          ⟨"0xb", "sig", "n", 0⟩).2.2
        ⟨"0xc", "sig", "n", 0⟩).1 ≠ .errorFrame "invalid_nonce" ∧
    (handleAddAgent (fun _ _ _ => some true) 0
        (handleAddAgent (fun _ _ _ => some true) 0 [] 1 connNearCap
          ⟨"0xb", "sig", "n", 0⟩).2.1 1
        (handleAddAgent (fun _ _ _ => some true) 0 [] 1 connNearCap
          ⟨"0xb", "sig", "n", 0⟩).2.2
        ⟨"0xc", "sig", "n", 0⟩).1 = .errorFrame "max_agents_reached" := by
  exact ⟨by decide, by decide⟩

/-! ## Claim C3 — single-agent verification -/

/-- Claim C3: for every agent record, nonce and timestamp, `verifyAgent`
returns `some r` exactly when `r` is the lowercased address, the timestamp is
within 30 seconds of `now`, and the EIP-191 primitive accepts the signature
over the canonical message `osaurus-tunnel:<address>:<nonce>:<timestamp>`;
and an exception inside the primitive (modelled as `none`) makes verification
return `none` instead of propagating. -/
theorem claim_verifyAgent_characterisation (verify : VerifyOracle) (now : Int)
    (agent : AgentAuth) (nonce : String) (timestamp : Int) :
    (∀ r, verifyAgent verify now agent nonce timestamp = some r ↔
        (r = lowerStr agent.address ∧
         (now - timestamp).natAbs ≤ TIMESTAMP_WINDOW_SECONDS ∧
         verify agent.address (buildSignedMessage agent.address nonce timestamp)
           agent.signature = some true)) ∧
    (verify agent.address (buildSignedMessage agent.address nonce timestamp)
        agent.signature = none →
      verifyAgent verify now agent nonce timestamp = none) := by
  constructor
  · intro r
    unfold verifyAgent
    by_cases hw : TIMESTAMP_WINDOW_SECONDS < (now - timestamp).natAbs
    · rw [if_pos hw]
      constructor
      · intro h
        cases h
      · rintro ⟨-, hle, -⟩
        exact absurd hle (Nat.not_le.mpr hw)
    · rw [if_neg hw]
      cases hv : verify agent.address
          (buildSignedMessage agent.address nonce timestamp) agent.signature with
      | none => simp
      | some b =>
        cases b
        · simp
        · simp [Nat.not_lt.mp hw, eq_comm]
  · intro hv
    unfold verifyAgent
    by_cases hw : TIMESTAMP_WINDOW_SECONDS < (now - timestamp).natAbs
    · rw [if_pos hw]
    · rw [if_neg hw, hv]

/-- Witness for C3: a throwing primitive yields `none`; an accepting primitive
inside the window yields the lowercased address. -/
theorem claim_verifyAgent_characterisation_witness :
    verifyAgent (fun _ _ _ => none) 5 ⟨"0xA", "s"⟩ "n" 5 = none ∧
    verifyAgent (fun _ _ _ => some true) 0 ⟨"0xAB", "s"⟩ "n" 0 =
      some (lowerStr "0xAB") := by
  constructor
  · exact (claim_verifyAgent_characterisation (fun _ _ _ => none) 5
      ⟨"0xA", "s"⟩ "n" 5).2 rfl
  · exact ((claim_verifyAgent_characterisation (fun _ _ _ => some true) 0
      ⟨"0xAB", "s"⟩ "n" 0).1 (lowerStr "0xAB")).mpr ⟨rfl, by decide, rfl⟩

/-! ## Claim C4 — request-header handling in `relayRequest` -/

/-- The header loop of `relayRequest` (`relay.ts` 53–59): copy every incoming
header except `host` into a fresh record under its lowercased name (later
duplicates overwrite), then assign `x-agent-address` and `x-forwarded-for`. -/
def relayRequestHeaders (agentAddress clientIp : String)
    (reqHeaders : List (String × String)) : List (String × String) :=
  let base := reqHeaders.foldl
    (fun acc kv =>
      if lowerStr kv.1 = "host" then acc else aset acc (lowerStr kv.1) kv.2) []
  aset (aset base "x-agent-address" agentAddress) "x-forwarded-for" clientIp

/-- Strip set of `sanitizeRequestHeaders` (`http.ts`). -/
def STRIPPED_REQUEST_HEADERS : List String :=
  ["host", "cookie", "authorization", "proxy-authorization",
   "x-forwarded-proto", "x-forwarded-host", "x-forwarded-port", "x-real-ip"]

/-- Prefix strip set of `sanitizeRequestHeaders` (`http.ts`). -/
def STRIPPED_REQUEST_HEADER_PREFIXES : List String := ["fly-", "cf-"]

/-- Embedding of `sanitizeRequestHeaders` (`http.ts`): the full strip-list
sanitiser the specification describes. `relayRequest` never calls it. -/
def sanitizeRequestHeaders (reqHeaders : List (String × String)) :
    List (String × String) :=
  reqHeaders.foldl
    (fun acc kv =>
      if lowerStr kv.1 ∈ STRIPPED_REQUEST_HEADERS then acc
      else if STRIPPED_REQUEST_HEADER_PREFIXES.any
          (fun p => (lowerStr kv.1).startsWith p) then acc
      else aset acc (lowerStr kv.1) kv.2) []

/-- Counterexample to C4 as stated: an incoming `Cookie` header survives in
the `request` frame built by `relayRequest`, whereas the claim's sanitisation
(the strip list of `sanitizeRequestHeaders`, plus the two injected headers)
would remove it. -/
theorem claim_request_header_sanitisation_counterexample :
    alookup (relayRequestHeaders "0xabc" "198.51.100.7"
      [("Cookie", "session=1")]) "cookie" = some "session=1" ∧
    alookup (aset (aset (sanitizeRequestHeaders [("Cookie", "session=1")])
        "x-agent-address" "0xabc") "x-forwarded-for" "198.51.100.7")
      "cookie" = none := by
  exact ⟨by decide, by decide⟩

/-- The value the header loop of `relayRequest` leaves under key `k`: the last
incoming header whose lowercased name is `k`, with `host` skipped. -/
def lastVal : List (String × String) → String → Option String
  | [], _ => none
  | kv :: rest, k =>
    match lastVal rest k with
    | some v => some v
    | none =>
      if lowerStr kv.1 = "host" then none
      else if lowerStr kv.1 = k then some kv.2 else none

theorem relayBuild_lookup (hs : List (String × String))
    (acc : List (String × String)) (k : String) :
    alookup (List.foldl
      (fun acc kv =>
        if lowerStr kv.1 = "host" then acc else aset acc (lowerStr kv.1) kv.2)
      acc hs) k =
      match lastVal hs k with
      | some v => some v
      | none => alookup acc k := by
  induction hs generalizing acc with
  | nil => rfl
  | cons kv rest ih =>
    rw [List.foldl_cons, ih]
    cases hrest : lastVal rest k with
    | some v => simp [lastVal, hrest]
    | none =>
      by_cases hhost : lowerStr kv.1 = "host"
      · simp [lastVal, hrest, hhost]
      · by_cases hk : lowerStr kv.1 = k
        · rw [hk] at hhost
          simp [lastVal, hrest, hhost, hk, alookup_aset_self]
        · simp [lastVal, hrest, hhost, hk, alookup_aset_ne acc (lowerStr kv.1) k _ hk]

theorem lastVal_host (hs : List (String × String)) : lastVal hs "host" = none := by
  induction hs with
  | nil => rfl
  | cons kv rest ih =>
    unfold lastVal
    rw [ih]
    by_cases hhost : lowerStr kv.1 = "host" <;> simp [hhost]

/-- Claim C4 (amended): the `request` frame's headers are the incoming ones
with only `host` removed — not the full strip list — under lowercased names
with later duplicates overriding, plus the injected `x-agent-address` and
`x-forwarded-for` (which override any incoming value). -/
theorem claim_request_headers_amended (agentAddress clientIp : String)
    (reqHeaders : List (String × String)) (k : String) :
    alookup (relayRequestHeaders agentAddress clientIp reqHeaders)
      "x-forwarded-for" = some clientIp ∧
    alookup (relayRequestHeaders agentAddress clientIp reqHeaders)
      "x-agent-address" = some agentAddress ∧
    alookup (relayRequestHeaders agentAddress clientIp reqHeaders)
      "host" = none ∧
    (k ≠ "x-forwarded-for" → k ≠ "x-agent-address" →
      alookup (relayRequestHeaders agentAddress clientIp reqHeaders) k =
        lastVal reqHeaders k) := by
  simp only [relayRequestHeaders]
  refine ⟨?_, ?_, ?_, ?_⟩
  · exact alookup_aset_self _ _ _
  · rw [alookup_aset_ne _ "x-forwarded-for" "x-agent-address" _ (by decide),
      alookup_aset_self]
  · rw [alookup_aset_ne _ "x-forwarded-for" "host" _ (by decide),
      alookup_aset_ne _ "x-agent-address" "host" _ (by decide),
      relayBuild_lookup reqHeaders [] "host", lastVal_host]
    rfl
  · intro hxff hxaa
    rw [alookup_aset_ne _ "x-forwarded-for" k _ (Ne.symm hxff),
      alookup_aset_ne _ "x-agent-address" k _ (Ne.symm hxaa),
      relayBuild_lookup reqHeaders [] k]
    cases hrest : lastVal reqHeaders k <;> rfl

/-- Witness for the amended C4: a `Cookie` header and a `Host` header flow
through the loop; `cookie` survives lowercased, `host` is dropped, and the
two injected headers are present. -/
theorem claim_request_headers_amended_witness :
    ("cookie" : String) ≠ "x-forwarded-for" ∧
    ("cookie" : String) ≠ "x-agent-address" ∧
    alookup (relayRequestHeaders "0xabc" "198.51.100.7"
      [("Host", "h.example"), ("Cookie", "session=1")]) "cookie" =
      lastVal [("Host", "h.example"), ("Cookie", "session=1")] "cookie" := by
  refine ⟨by decide, by decide, ?_⟩
  exact (claim_request_headers_amended "0xabc" "198.51.100.7"
    [("Host", "h.example"), ("Cookie", "session=1")] "cookie").2.2.2
    (by decide) (by decide)

/-! ## Claim C5 — buffered-response dispatch -/

/-- `Headers.set` semantics: names are normalised to lowercase. -/
def headersSet (hs : List (String × String)) (k v : String) :
    List (String × String) :=
  aset hs (lowerStr k) v

/-- A completed HTTP response. -/
structure HttpResponse where
  status : Nat
  headers : List (String × String)
  body : String
deriving DecidableEq

/-- Embedding of the buffered `resolve` installed by `sendAndAwait`
(`relay.ts` 85–96): copy every frame header into a fresh `Headers` object via
`set`, and complete with the frame's status and body. -/
def resolveBuffered (frame : ResponseFrame) : HttpResponse :=
  { status := frame.status,
    headers := frame.headers.foldl (fun acc kv => headersSet acc kv.1 kv.2) [],
    body := frame.body }

/-- Hop-by-hop header set of `sanitizeResponseHeaders` (`http.ts`). -/
def HOP_BY_HOP_HEADERS : List String :=
  ["transfer-encoding", "connection", "keep-alive", "upgrade",
   "proxy-authenticate", "proxy-authorization", "te", "trailer"]

/-- Embedding of `sanitizeResponseHeaders` (`http.ts`): drop hop-by-hop
headers and set permissive CORS. `sendAndAwait` never calls it. -/
def sanitizeResponseHeaders (raw : List (String × String)) :
    List (String × String) :=
  let hs := raw.foldl
    (fun acc kv =>
      if lowerStr kv.1 ∈ HOP_BY_HOP_HEADERS then acc
      else headersSet acc kv.1 kv.2) []
  headersSet (headersSet hs "access-control-allow-origin" "*")
    "access-control-expose-headers" "*"

/-- Counterexample to C5 as stated: a `connection: close` header in the
`response` frame survives into the completed HTTP response, and no
`access-control-allow-origin` header is injected — unlike the sanitised
headers the claim describes. -/
theorem claim_buffered_response_counterexample :
    alookup (resolveBuffered ⟨"id1", 200, [("connection", "close")], "ok"⟩).headers
      "connection" = some "close" ∧
    alookup (resolveBuffered ⟨"id1", 200, [("connection", "close")], "ok"⟩).headers
      "access-control-allow-origin" = none ∧
    alookup (sanitizeResponseHeaders [("connection", "close")])
      "connection" = none ∧
    alookup (sanitizeResponseHeaders [("connection", "close")])
      "access-control-allow-origin" = some "*" := by
  exact ⟨by decide, by decide, by decide, by decide⟩

/-- The value a sequence of `Headers.set` calls leaves under key `k`: the last
entry whose lowercased name is `k`. -/
def lastSet : List (String × String) → String → Option String
  | [], _ => none
  | kv :: rest, k =>
    match lastSet rest k with
    | some v => some v
    | none => if lowerStr kv.1 = k then some kv.2 else none

theorem headersBuild_lookup (hs : List (String × String))
    (acc : List (String × String)) (k : String) :
    alookup (List.foldl (fun acc kv => headersSet acc kv.1 kv.2) acc hs) k =
      match lastSet hs k with
      | some v => some v
      | none => alookup acc k := by
  induction hs generalizing acc with
  | nil => rfl
  | cons kv rest ih =>
    rw [List.foldl_cons, ih]
    cases hrest : lastSet rest k with
    | some v => simp [lastSet, hrest]
    | none =>
      by_cases hk : lowerStr kv.1 = k
      · simp [lastSet, hrest, hk, headersSet, alookup_aset_self]
      · simp [lastSet, hrest, hk, headersSet,
          alookup_aset_ne acc (lowerStr kv.1) k _ hk]

/-- Claim C5 (amended): the completed HTTP response carries the frame's
status, the frame's body verbatim, and headers equal to the frame's headers
with names normalised to lowercase (later duplicates overriding) — the
hop-by-hop set is not stripped and no CORS headers are injected. -/
theorem claim_buffered_response_amended (frame : ResponseFrame) (k : String) :
    (resolveBuffered frame).status = frame.status ∧
    (resolveBuffered frame).body = frame.body ∧
    alookup (resolveBuffered frame).headers k = lastSet frame.headers k := by
  refine ⟨rfl, rfl, ?_⟩
  show alookup (List.foldl _ [] frame.headers) k = _
  rw [headersBuild_lookup frame.headers [] k]
  cases hrest : lastSet frame.headers k <;> rfl

/-! ## `src/rate_limit.ts` — token bucket (C8) -/

/-- One bucket: fractional tokens and the last refill instant (milliseconds).
JS numbers are modelled as exact rationals. -/
structure Bucket where
  tokens : ℚ
  lastRefill : Int
deriving DecidableEq

/-- The `RateLimiter` state: per-key buckets plus the constructor parameters
`maxTokens` and `windowMs` (the stored `refillRate` is `maxTokens/windowMs`). -/
structure RateLimiter where
  buckets : List (String × Bucket)
  maxTokens : Nat
  windowMs : Nat
deriving DecidableEq

/-- Tokens per millisecond (`this.refillRate`). -/
def RateLimiter.refillRate (rl : RateLimiter) : ℚ :=
  (rl.maxTokens : ℚ) / (rl.windowMs : ℚ)

/-- Embedding of `RateLimiter.allow` (`rate_limit.ts` 22–42): a fresh bucket
starts at `maxTokens − 1` and admits; otherwise refill by elapsed time times
the rate, clamp at capacity, update `lastRefill`, and spend one token exactly
when at least one token is available. -/
def RateLimiter.allow (rl : RateLimiter) (now : Int) (key : String) :
    Bool × RateLimiter :=
  match alookup rl.buckets key with
  | none =>
    (true, { rl with buckets := aset rl.buckets key ⟨(rl.maxTokens : ℚ) - 1, now⟩ })
  | some bucket =>
    let elapsed : ℚ := ((now - bucket.lastRefill : Int) : ℚ)
    let tokens₁ : ℚ := min (rl.maxTokens : ℚ) (bucket.tokens + elapsed * rl.refillRate)
    if tokens₁ < 1 then
      (false, { rl with buckets := aset rl.buckets key ⟨tokens₁, now⟩ })
    else
      (true, { rl with buckets := aset rl.buckets key ⟨tokens₁ - 1, now⟩ })

/-- Run a sequence of `allow` calls for one key at the given instants,
collecting the answers. -/
def runAllowList (rl : RateLimiter) (key : String) : List Int → List Bool
  | [] => []
  | t :: ts => (rl.allow t key).1 :: runAllowList (rl.allow t key).2 key ts

/-- Numeric value of an admission decision. -/
def boolScore (ans : Bool) : ℚ := if ans then 1 else 0

theorem boolScore_false : boolScore false = 0 := rfl

theorem boolScore_true : boolScore true = 1 := rfl

theorem refillRate_nonneg (rl : RateLimiter) : 0 ≤ rl.refillRate := by
  unfold RateLimiter.refillRate
  positivity

/-- One `allow` step on an existing bucket: the bucket keeps nonnegative
tokens, its clock advances to `now`, the admission plus the remaining tokens
is bounded both by the refill inequality and by the capacity clamp, and the
limiter's parameters are unchanged. -/
theorem count_cons_score (ans : Bool) (l : List Bool) :
    (((ans :: l).count true : Nat) : ℚ) =
      boolScore ans + ((l.count true : Nat) : ℚ) := by
  cases ans
  · simp [List.count_cons, boolScore]
  · simp [List.count_cons, boolScore]
    ring

theorem allow_step (rl : RateLimiter) (key : String) (t : Int) (b : Bucket)
    (hb : alookup rl.buckets key = some b) (h0 : 0 ≤ b.tokens) :
    ∃ b', alookup (rl.allow t key).2.buckets key = some b' ∧
      b'.lastRefill = t ∧
      (b.lastRefill ≤ t → 0 ≤ b'.tokens) ∧
      boolScore (rl.allow t key).1 + b'.tokens ≤
        b.tokens + ((t - b.lastRefill : Int) : ℚ) * rl.refillRate ∧
      boolScore (rl.allow t key).1 + b'.tokens ≤ (rl.maxTokens : ℚ) ∧
      (rl.allow t key).2.maxTokens = rl.maxTokens ∧
      (rl.allow t key).2.windowMs = rl.windowMs := by
  have hright := min_le_right (rl.maxTokens : ℚ)
    (b.tokens + ((t - b.lastRefill : Int) : ℚ) * rl.refillRate)
  have hleft := min_le_left (rl.maxTokens : ℚ)
    (b.tokens + ((t - b.lastRefill : Int) : ℚ) * rl.refillRate)
  simp only [RateLimiter.allow, hb]
  split
  · next h1 =>
    refine ⟨_, alookup_aset_self _ _ _, rfl, ?_, ?_, ?_, rfl, rfl⟩
    · intro hL
      have he : (0 : ℚ) ≤ ((t - b.lastRefill : Int) : ℚ) := by
        exact_mod_cast Int.sub_nonneg.mpr hL
      have hm := mul_nonneg he (refillRate_nonneg rl)
      exact le_min (Nat.cast_nonneg _) (by linarith)
    · dsimp only
      rw [boolScore_false]
      linarith [hright]
    · dsimp only
      rw [boolScore_false]
      linarith [hleft]
  · next h1 =>
    push_neg at h1
    refine ⟨_, alookup_aset_self _ _ _, rfl, ?_, ?_, ?_, rfl, rfl⟩
    · intro _
      dsimp only
      linarith
    · dsimp only
      rw [boolScore_true]
      linarith [hright]
    · dsimp only
      rw [boolScore_true]
      linarith [hleft]

theorem allow_params (rl : RateLimiter) (t : Int) (key : String) :
    (rl.allow t key).2.maxTokens = rl.maxTokens ∧
    (rl.allow t key).2.windowMs = rl.windowMs := by
  cases hb : alookup rl.buckets key with
  | none => simp [RateLimiter.allow, hb]
  | some b =>
    simp only [RateLimiter.allow, hb]
    split <;> exact ⟨rfl, rfl⟩

theorem allow_refillRate (rl : RateLimiter) (t : Int) (key : String) :
    (rl.allow t key).2.refillRate = rl.refillRate := by
  unfold RateLimiter.refillRate
  rw [(allow_params rl t key).1, (allow_params rl t key).2]

/-- Potential bound: starting from an existing bucket with nonnegative tokens,
the number of admissions over any nondecreasing sequence of instants between
the bucket's clock and a horizon `T` is at most the stored tokens plus the
refill available until `T`. -/
theorem runAllow_potential (key : String) :
    ∀ (ts : List Int) (rl : RateLimiter) (b : Bucket) (T : Int),
      alookup rl.buckets key = some b → 0 ≤ b.tokens →
      b.lastRefill ≤ T →
      (∀ t ∈ ts, b.lastRefill ≤ t ∧ t ≤ T) →
      List.Pairwise (· ≤ ·) ts →
      ((runAllowList rl key ts).count true : ℚ) ≤
        b.tokens + ((T - b.lastRefill : Int) : ℚ) * rl.refillRate := by
  intro ts
  induction ts with
  | nil =>
    intro rl b T hb h0 hLT _ _
    have he : (0 : ℚ) ≤ ((T - b.lastRefill : Int) : ℚ) := by
      exact_mod_cast Int.sub_nonneg.mpr hLT
    have hm := mul_nonneg he (refillRate_nonneg rl)
    have hz : (((runAllowList rl key []).count true : Nat) : ℚ) = 0 := by
      simp [runAllowList]
    rw [hz]
    linarith
  | cons t rest ih =>
    intro rl b T hb h0 hLT hmem hpair
    obtain ⟨hLt, htT⟩ := hmem t (List.mem_cons_self t rest)
    obtain ⟨b', hb', hbL, hb0, hineq, _hclamp, _, _⟩ :=
      allow_step rl key t b hb h0
    obtain ⟨hhead, hpair'⟩ := List.pairwise_cons.mp hpair
    have hmem' : ∀ x ∈ rest, b'.lastRefill ≤ x ∧ x ≤ T := by
      intro x hx
      exact ⟨hbL ▸ hhead x hx, (hmem x (List.mem_cons_of_mem t hx)).2⟩
    have hLT' : b'.lastRefill ≤ T := hbL ▸ htT
    have IH := ih (rl.allow t key).2 b' T hb' (hb0 hLt) hLT' hmem' hpair'
    rw [allow_refillRate rl t key] at IH
    rw [runAllowList, count_cons_score]
    have hsplit : ((T - b.lastRefill : Int) : ℚ) =
        ((t - b.lastRefill : Int) : ℚ) + ((T - t : Int) : ℚ) := by
      push_cast
      ring
    rw [hbL] at IH
    rw [hsplit]
    linarith

/-- Counterexample to C8 as stated: with capacity 2 and a 2 ms window, calls
at instants 0, 0, 1 — all inside one window of length `windowMillis` — are
all three admitted, exceeding the claimed bound of `capacity`. -/
theorem claim_rate_limiter_window_counterexample :
    runAllowList { buckets := [], maxTokens := 2, windowMs := 2 } "k" [0, 0, 1]
      = [true, true, true] ∧
    (runAllowList { buckets := [], maxTokens := 2, windowMs := 2 } "k"
      [0, 0, 1]).count true = 3 ∧ ¬ ((3 : Nat) ≤ 2) := by
  have h1 : ({ buckets := [], maxTokens := 2, windowMs := 2 } : RateLimiter).allow 0 "k" =
      (true, { buckets := [("k", ⟨1, 0⟩)], maxTokens := 2, windowMs := 2 }) := by
    simp only [RateLimiter.allow, alookup]
    norm_num [aset]
  have h2 : ({ buckets := [("k", ⟨1, 0⟩)], maxTokens := 2, windowMs := 2 }
        : RateLimiter).allow 0 "k" =
      (true, { buckets := [("k", ⟨0, 0⟩)], maxTokens := 2, windowMs := 2 }) := by
    simp only [RateLimiter.allow, alookup, if_pos rfl]
    norm_num [RateLimiter.refillRate, min_def, aset]
  have h3 : ({ buckets := [("k", ⟨0, 0⟩)], maxTokens := 2, windowMs := 2 }
        : RateLimiter).allow 1 "k" =
      (true, { buckets := [("k", ⟨0, 1⟩)], maxTokens := 2, windowMs := 2 }) := by
    simp only [RateLimiter.allow, alookup, if_pos rfl]
    norm_num [RateLimiter.refillRate, min_def, aset]
  have hrun : runAllowList { buckets := [], maxTokens := 2, windowMs := 2 } "k"
      [0, 0, 1] = [true, true, true] := by
    rw [runAllowList, h1]
    rw [runAllowList, h2]
    rw [runAllowList, h3]
    rfl
  refine ⟨hrun, ?_, by decide⟩
  rw [hrun]
  rfl

/-- Claim C8 (amended): over any window of length `windowMillis` — calls at
nondecreasing instants `t₁ ≤ … ≤ tₙ ≤ t₁ + windowMillis` on one key, with the
key's bucket (if any) in a reachable shape (tokens between 0 and capacity,
clock not in the future) — `allow` returns true at most `2 × capacity` times.
The bound `capacity` of the original claim is not achievable: a full burst at
the window's start plus the refill accrued across the window admits up to
twice the capacity. -/
theorem claim_rate_limiter_window_bound (rl : RateLimiter) (key : String)
    (t₁ : Int) (ts : List Int)
    (hmax : 1 ≤ rl.maxTokens) (hwin : 0 < rl.windowMs)
    (hsorted : List.Pairwise (· ≤ ·) (t₁ :: ts))
    (hwindow : ∀ t ∈ t₁ :: ts, t₁ ≤ t ∧ t ≤ t₁ + (rl.windowMs : Int))
    (hstate : ∀ b, alookup rl.buckets key = some b →
        0 ≤ b.tokens ∧ b.tokens ≤ (rl.maxTokens : ℚ) ∧ b.lastRefill ≤ t₁) :
    (runAllowList rl key (t₁ :: ts)).count true ≤ 2 * rl.maxTokens := by
  have hw0 : ((rl.windowMs : ℚ)) ≠ 0 := by
    have : (0 : ℚ) < (rl.windowMs : ℚ) := by exact_mod_cast hwin
    exact ne_of_gt this
  have hWq : ((t₁ + (rl.windowMs : Int) - t₁ : Int) : ℚ) * rl.refillRate =
      (rl.maxTokens : ℚ) := by
    have h1 : ((t₁ + (rl.windowMs : Int) - t₁ : Int) : ℚ) = (rl.windowMs : ℚ) := by
      push_cast
      ring
    rw [h1]
    unfold RateLimiter.refillRate
    field_simp
  obtain ⟨hhead, hpair'⟩ := List.pairwise_cons.mp hsorted
  have hmem' : ∀ x ∈ ts, t₁ ≤ x ∧ x ≤ t₁ + (rl.windowMs : Int) := by
    intro x hx
    exact ⟨hhead x hx, (hwindow x (List.mem_cons_of_mem t₁ hx)).2⟩
  cases hb : alookup rl.buckets key with
  | none =>
    have hallow : rl.allow t₁ key =
        (true, { rl with
          buckets := aset rl.buckets key ⟨(rl.maxTokens : ℚ) - 1, t₁⟩ }) := by
      simp only [RateLimiter.allow, hb]
    have hb' : alookup (aset rl.buckets key
        ⟨(rl.maxTokens : ℚ) - 1, t₁⟩) key = some ⟨(rl.maxTokens : ℚ) - 1, t₁⟩ :=
      alookup_aset_self _ _ _
    have h0' : (0 : ℚ) ≤ (rl.maxTokens : ℚ) - 1 := by
      have : (1 : ℚ) ≤ (rl.maxTokens : ℚ) := by exact_mod_cast hmax
      linarith
    have hpot := runAllow_potential key ts
      { rl with buckets := aset rl.buckets key ⟨(rl.maxTokens : ℚ) - 1, t₁⟩ }
      ⟨(rl.maxTokens : ℚ) - 1, t₁⟩ (t₁ + (rl.windowMs : Int))
      hb' h0' (by exact Int.le_add_of_nonneg_right (by positivity)) hmem' hpair'
    have hrate : ({ rl with
        buckets := aset rl.buckets key ⟨(rl.maxTokens : ℚ) - 1, t₁⟩ }
          : RateLimiter).refillRate = rl.refillRate := rfl
    rw [hrate] at hpot
    rw [runAllowList, hallow]
    have hq : (((runAllowList { rl with
        buckets := aset rl.buckets key ⟨(rl.maxTokens : ℚ) - 1, t₁⟩ } key
          ts).count true : Nat) : ℚ) + 1 ≤ 2 * (rl.maxTokens : ℚ) := by
      have hW := hWq
      dsimp only at hpot
      linarith
    have : ((true :: runAllowList { rl with
        buckets := aset rl.buckets key ⟨(rl.maxTokens : ℚ) - 1, t₁⟩ } key
          ts).count true : ℚ) ≤ 2 * (rl.maxTokens : ℚ) := by
      rw [count_cons_score, boolScore_true]
      linarith
    exact_mod_cast this
  | some b =>
    obtain ⟨hb0, _hbmax, hbL⟩ := hstate b hb
    obtain ⟨b', hb', hbL', hb0', _hineq, hclamp, hmaxeq, hwineq⟩ :=
      allow_step rl key t₁ b hb hb0
    have hpot := runAllow_potential key ts (rl.allow t₁ key).2 b'
      (t₁ + (rl.windowMs : Int)) hb' (hb0' hbL)
      (hbL' ▸ Int.le_add_of_nonneg_right (by positivity))
      (by
        intro x hx
        refine ⟨hbL' ▸ (hmem' x hx).1, (hmem' x hx).2⟩) hpair'
    rw [allow_refillRate rl t₁ key, hbL'] at hpot
    rw [runAllowList]
    have hfin : (((rl.allow t₁ key).1 ::
        runAllowList (rl.allow t₁ key).2 key ts).count true : ℚ) ≤
        2 * (rl.maxTokens : ℚ) := by
      rw [count_cons_score]
      have hW := hWq
      linarith
    exact_mod_cast hfin

/-- Witness for the amended C8: the production tunnel limiter shape (5 per
60 s) with a single call inside the window. -/
theorem claim_rate_limiter_window_bound_witness :
    (1 ≤ (5 : Nat)) ∧ (0 < (60000 : Nat)) ∧
    (runAllowList { buckets := [], maxTokens := 5, windowMs := 60000 } "ip"
      [(0 : Int)]).count true ≤ 2 * 5 := by
  refine ⟨by decide, by decide, ?_⟩
  exact claim_rate_limiter_window_bound
    { buckets := [], maxTokens := 5, windowMs := 60000 } "ip" 0 []
    (by decide) (by decide) (by simp)
    (by
      intro t ht
      simp only [List.mem_cons, List.not_mem_nil, or_false] at ht
      subst ht
      exact ⟨le_refl 0, by norm_num⟩)
    (by
      intro b hb
      simp [alookup] at hb)

/-! ## Claim C9 — streaming round trip (`relay.ts` 97–181) -/

/-- UTF-8 encoding of one character (the semantics of `TextEncoder`). -/
def utf8Char (c : Char) : List UInt8 :=
  let v := c.toNat
  if v < 0x80 then [UInt8.ofNat v]
  else if v < 0x800 then
    [UInt8.ofNat (0xC0 + v / 0x40), UInt8.ofNat (0x80 + v % 0x40)]
  else if v < 0x10000 then
    [UInt8.ofNat (0xE0 + v / 0x1000), UInt8.ofNat (0x80 + v / 0x40 % 0x40),
     UInt8.ofNat (0x80 + v % 0x40)]
  else
    [UInt8.ofNat (0xF0 + v / 0x40000), UInt8.ofNat (0x80 + v / 0x1000 % 0x40),
     UInt8.ofNat (0x80 + v / 0x40 % 0x40), UInt8.ofNat (0x80 + v % 0x40)]

/-- UTF-8 bytes of a string (`TextEncoder.encode`). -/
def encodeUtf8 (s : String) : List UInt8 := (s.data.map utf8Char).flatten

theorem encodeUtf8_append (a b : String) :
    encodeUtf8 (a ++ b) = encodeUtf8 a ++ encodeUtf8 b := by
  unfold encodeUtf8
  rw [String.data_append, List.map_append, List.flatten_append]

/-- Concatenation of the chunk payloads in arrival order. -/
def concatAll (cs : List String) : String := cs.foldr (· ++ ·) ""

theorem encode_concatAll (cs : List String) :
    encodeUtf8 (concatAll cs) = (cs.map encodeUtf8).flatten := by
  induction cs with
  | nil => rfl
  | cons c rest ih =>
    show encodeUtf8 (c ++ concatAll rest) = _
    rw [encodeUtf8_append, ih]
    rfl

/-- The body sink handed to the HTTP response at `stream_start`: the chunks
enqueued so far and the terminal flags of the `ReadableStream` controller. -/
structure BodySink where
  chunks : List (List UInt8)
  closed : Bool
  errored : Bool
deriving DecidableEq

/-- Multiplexer state for one tunnel: the in-flight table (`conn.pending`,
request id ↦ deadline timer), the streaming table (`conn.streaming`, request
id ↦ idle timer) and the body sinks held by the HTTP side. -/
structure MuxSt where
  pending : List (String × Nat)
  streaming : List (String × Nat)
  sinks : List (String × BodySink)
deriving DecidableEq

/-- Embedding of `handleStreamStart` (`relay.ts` 138–147) combined with
`resolveStream` (`relay.ts` 97–124): if the id is in flight, cancel its
deadline, remove it, create an open sink, register the streaming entry with a
fresh idle timer, and resolve the HTTP response around the sink. -/
def handleStreamStart (st : MuxSt) (id : String) (idleTimer : Nat) : MuxSt :=
  match alookup st.pending id with
  | none => st
  | some _deadline =>
    { pending := adel st.pending id,
      streaming := aset st.streaming id idleTimer,
      sinks := aset st.sinks id ⟨[], false, false⟩ }

/-- Embedding of `handleStreamChunk` (`relay.ts` 149–168): if the id is
streaming, reset the idle timer and enqueue the UTF-8 bytes of the chunk; an
enqueue onto a terminated controller throws, and the catch removes the
streaming entry. -/
def handleStreamChunk (st : MuxSt) (id : String) (data : String)
    (newTimer : Nat) : MuxSt :=
  match alookup st.streaming id with
  | none => st
  | some _t =>
    match alookup st.sinks id with
    | none => st
    | some sink =>
      if sink.closed || sink.errored then
        { st with streaming := adel st.streaming id }
      else
        { st with
          streaming := aset st.streaming id newTimer,
          sinks := aset st.sinks id
            { sink with chunks := sink.chunks ++ [encodeUtf8 data] } }

/-- Embedding of `handleStreamEnd` (`relay.ts` 170–181): if the id is
streaming, cancel the idle timer, remove the entry and close the sink. -/
def handleStreamEnd (st : MuxSt) (id : String) : MuxSt :=
  match alookup st.streaming id with
  | none => st
  | some _t =>
    match alookup st.sinks id with
    | none => { st with streaming := adel st.streaming id }
    | some sink =>
      { st with
        streaming := adel st.streaming id,
        sinks := aset st.sinks id { sink with closed := true } }

/-- Delivering `stream_start`, the chunks in order, then `stream_end`. -/
def runStreamSeq (st : MuxSt) (id : String) (idleTimer : Nat)
    (cs : List String) : MuxSt :=
  handleStreamEnd
    (cs.foldl (fun s c => handleStreamChunk s id c 0)
      (handleStreamStart st id idleTimer)) id

theorem runChunks_accum (id : String) :
    ∀ (cs : List String) (st : MuxSt) (t : Nat) (acc : List (List UInt8)),
      alookup st.streaming id = some t →
      alookup st.sinks id = some ⟨acc, false, false⟩ →
      ∃ t', alookup (cs.foldl (fun s c => handleStreamChunk s id c 0)
          st).streaming id = some t' ∧
        alookup (cs.foldl (fun s c => handleStreamChunk s id c 0) st).sinks id =
          some ⟨acc ++ cs.map encodeUtf8, false, false⟩ := by
  intro cs
  induction cs with
  | nil =>
    intro st t acc hs hsink
    exact ⟨t, hs, by simpa using hsink⟩
  | cons c rest ih =>
    intro st t acc hs hsink
    rw [List.foldl_cons]
    have hstep : handleStreamChunk st id c 0 =
        { st with
          streaming := aset st.streaming id 0,
          sinks := aset st.sinks id ⟨acc ++ [encodeUtf8 c], false, false⟩ } := by
      unfold handleStreamChunk
      rw [hs, hsink]
      rfl
    rw [hstep]
    obtain ⟨t', h1, h2⟩ := ih
      { st with
        streaming := aset st.streaming id 0,
        sinks := aset st.sinks id ⟨acc ++ [encodeUtf8 c], false, false⟩ }
      0 (acc ++ [encodeUtf8 c]) (alookup_aset_self _ _ _) (alookup_aset_self _ _ _)
    refine ⟨t', h1, ?_⟩
    rw [h2]
    simp

/-- Claim C9: streaming round trip. For a request id with an in-flight entry,
delivering `stream_start`, then `stream_chunk c1 … cN` in order, then
`stream_end`, leaves the HTTP body sink closed normally (not errored) holding
the chunk byte sequences in arrival order, whose concatenation is the UTF-8
encoding of `c1 ++ … ++ cN`. -/
theorem claim_streaming_round_trip (st : MuxSt) (id : String) (deadline : Nat)
    (idleTimer : Nat) (cs : List String)
    (hp : alookup st.pending id = some deadline) :
    alookup (runStreamSeq st id idleTimer cs).sinks id =
      some ⟨cs.map encodeUtf8, true, false⟩ ∧
    (cs.map encodeUtf8).flatten = encodeUtf8 (concatAll cs) := by
  have hstart : handleStreamStart st id idleTimer =
      { pending := adel st.pending id,
        streaming := aset st.streaming id idleTimer,
        sinks := aset st.sinks id ⟨[], false, false⟩ } := by
    unfold handleStreamStart
    rw [hp]
  obtain ⟨t', h1, h2⟩ := runChunks_accum id cs
    { pending := adel st.pending id,
      streaming := aset st.streaming id idleTimer,
      sinks := aset st.sinks id ⟨[], false, false⟩ }
    idleTimer [] (alookup_aset_self _ _ _) (alookup_aset_self _ _ _)
  constructor
  · unfold runStreamSeq
    rw [hstart]
    unfold handleStreamEnd
    rw [h1, h2]
    simpa using alookup_aset_self _ id
      (⟨[] ++ cs.map encodeUtf8, true, false⟩ : BodySink)
  · rw [encode_concatAll]

/-- Witness for C9: two chunks `ab`, `cd` on an in-flight request produce a
normally closed sink holding their encodings in order. -/
theorem claim_streaming_round_trip_witness :
    alookup ([("r1", 9)] : List (String × Nat)) "r1" = some 9 ∧
    alookup (runStreamSeq ⟨[("r1", 9)], [], []⟩ "r1" 4 ["ab", "cd"]).sinks "r1" =
      some ⟨["ab", "cd"].map encodeUtf8, true, false⟩ := by
  refine ⟨by decide, ?_⟩
  exact (claim_streaming_round_trip ⟨[("r1", 9)], [], []⟩ "r1" 9 4 ["ab", "cd"]
    (by decide)).1

/-! ## Claim C10 — router dispatch (`router.ts` 30–76) -/

/-- The inbound request as the router sees it: method, URL pathname, `Host`
header and `Upgrade` header. -/
structure InboundReq where
  method : String
  pathname : String
  host : String
  upgradeHeader : Option String
deriving DecidableEq

/-- The outcome classes of `handleRequest`, labelled by the response each
branch produces. -/
inductive Routed
  | health (tunnels : Nat)
  | stats
  | rateLimited
  | websocketRequired
  | tunnelConnect
  | corsPreflight
  | invalidSubdomain
  | relayTo (address : String)
deriving DecidableEq

/-- Case-insensitive hex digit, one character of `[0-9a-f]` under `/i`. -/
def isHexDigit (c : Char) : Bool :=
  ('0' ≤ c && c ≤ '9') || ('a' ≤ c && c ≤ 'f') || ('A' ≤ c && c ≤ 'F')

/-- The test of `AGENT_ADDRESS_RE = /^0x[0-9a-f]{40}$/i`. -/
def agentAddressRe (s : String) : Bool :=
  s.data.length == 42 &&
  (s.data.take 2).map Char.toLower == ['0', 'x'] &&
  (s.data.drop 2).all isHexDigit

/-- Embedding of `extractAgentAddress` (`router.ts` 22–28): the host must end
in `.BASE_DOMAIN` and the remaining label must match the agent-address
pattern; the result is lowercased. -/
def extractAgentAddress (host : String) : Option String :=
  if ("." ++ BASE_DOMAIN).data.isSuffixOf host.data then
    let sub := String.mk
      (host.data.take (host.data.length - ("." ++ BASE_DOMAIN).data.length))
    if agentAddressRe sub then some (lowerStr sub) else none
  else none

/-- Containment of a character sequence (`String.prototype.includes`). -/
def containsSeq (pat : List Char) : List Char → Bool
  | [] => pat.isEmpty
  | c :: rest => (List.take pat.length (c :: rest) == pat) || containsSeq pat rest

/-- The tunnel-connect upgrade test
(`req.headers.get("upgrade")?.toLowerCase().includes("websocket")`). -/
def hasWebsocketUpgrade : Option String → Bool
  | none => false
  | some u => containsSeq "websocket".data (lowerStr u).data

/-- Embedding of `handleRequest` (`router.ts` 30–76). The three rate limiters
are oracles (`statsAllow`, `tunnelAllow`, `requestAllow`) and
`getActiveTunnelCount()` is the parameter `tunnelCount`. -/
def handleRequest (statsAllow tunnelAllow requestAllow : Bool)
    (tunnelCount : Nat) (r : InboundReq) : Routed :=
  if r.pathname = "/health" then .health tunnelCount
  else if r.pathname = "/stats" then
    if !statsAllow then .rateLimited else .stats
  else if r.pathname = "/tunnel/connect" then
    if !(hasWebsocketUpgrade r.upgradeHeader) then .websocketRequired
    else if !tunnelAllow then .rateLimited
    else .tunnelConnect
  else
    match extractAgentAddress r.host with
    | none => .invalidSubdomain
    | some addr =>
      if r.method = "OPTIONS" then .corsPreflight
      else if !requestAllow then .rateLimited
      else .relayTo addr

/-- Claim C10: the reserved endpoints are dispatched by path alone, for every
HTTP method: `/health` answers with the health payload, `/stats` answers the
stats JSON or 429 according to the stats limiter, `/tunnel/connect` enters
the tunnel-upgrade branch (websocket check, then tunnel limiter, then
upgrade); and whenever the path is one of the three, the request is never
relayed to an agent, whatever the Host header. -/
theorem claim_router_path_dispatch (statsAllow tunnelAllow requestAllow : Bool)
    (tunnelCount : Nat) (r : InboundReq) :
    (r.pathname = "/health" →
      handleRequest statsAllow tunnelAllow requestAllow tunnelCount r =
        .health tunnelCount) ∧
    (r.pathname = "/stats" →
      handleRequest statsAllow tunnelAllow requestAllow tunnelCount r =
        (if statsAllow then .stats else .rateLimited)) ∧
    (r.pathname = "/tunnel/connect" →
      handleRequest statsAllow tunnelAllow requestAllow tunnelCount r =
        (if hasWebsocketUpgrade r.upgradeHeader then
          (if tunnelAllow then .tunnelConnect else .rateLimited)
         else .websocketRequired)) ∧
    (∀ a, (r.pathname = "/health" ∨ r.pathname = "/stats" ∨
        r.pathname = "/tunnel/connect") →
      handleRequest statsAllow tunnelAllow requestAllow tunnelCount r ≠
        .relayTo a) := by
  have hhealth : r.pathname = "/health" →
      handleRequest statsAllow tunnelAllow requestAllow tunnelCount r =
        .health tunnelCount := by
    intro hp
    unfold handleRequest
    rw [if_pos hp]
  have hstats : r.pathname = "/stats" →
      handleRequest statsAllow tunnelAllow requestAllow tunnelCount r =
        (if statsAllow then .stats else .rateLimited) := by
    intro hp
    unfold handleRequest
    rw [hp, if_neg (by decide), if_pos rfl]
    cases statsAllow <;> rfl
  have htunnel : r.pathname = "/tunnel/connect" →
      handleRequest statsAllow tunnelAllow requestAllow tunnelCount r =
        (if hasWebsocketUpgrade r.upgradeHeader then
          (if tunnelAllow then .tunnelConnect else .rateLimited)
         else .websocketRequired) := by
    intro hp
    unfold handleRequest
    rw [hp, if_neg (by decide), if_neg (by decide), if_pos rfl]
    cases hupg : hasWebsocketUpgrade r.upgradeHeader <;>
      cases tunnelAllow <;> rfl
  refine ⟨hhealth, hstats, htunnel, ?_⟩
  intro a hdisj
  rcases hdisj with hp | hp | hp
  · rw [hhealth hp]
    simp
  · rw [hstats hp]
    cases statsAllow <;> simp
  · rw [htunnel hp]
    cases hasWebsocketUpgrade r.upgradeHeader <;> cases tunnelAllow <;> simp

/-- Witness for C10: a POST to `/health` on an agent subdomain host is served
the health payload, not relayed. -/
theorem claim_router_path_dispatch_witness :
    ({ method := "POST", pathname := "/health",
       host := "0xaaaaaaaaaaaaaaaaaaaaaaaaaaaaaaaaaaaaaaaa.agent.osaurus.ai",
       upgradeHeader := none } : InboundReq).pathname = "/health" ∧
    handleRequest true true true 7
      { method := "POST", pathname := "/health",
        host := "0xaaaaaaaaaaaaaaaaaaaaaaaaaaaaaaaaaaaaaaaa.agent.osaurus.ai",
        upgradeHeader := none } = .health 7 := by
  refine ⟨rfl, ?_⟩
  exact (claim_router_path_dispatch true true true 7
    { method := "POST", pathname := "/health",
      host := "0xaaaaaaaaaaaaaaaaaaaaaaaaaaaaaaaaaaaaaaaa.agent.osaurus.ai",
      upgradeHeader := none }).1 rfl

end OsaurusRelay
